import Mathlib

/-!
Shallow embedding of `src/index.rs` from cygnet3/electrs: the indexing core
(standard sync, silent-payments sync, the two block visitors, the bounded
query path), together with proofs of the specification claims.

Conventions of the embedding:
* machine bytes are modelled as `Nat`; hashes, txids, public keys and headers
  are abstract data (external `bitcoin`/`secp256k1` types);
* a `BlockHash` is a 32-byte array (subtype), a compressed public-key
  serialization (`PublicKey::serialize`) is a 33-byte array, mirroring the
  Rust array types `[u8; 32]` and `[u8; 33]`;
* external collaborators (daemon RPC, chain view, silent-payments crate,
  row sorting by the db codec) are fields of an `Env`/`Chain`/`DBStore`
  record of oracles, exactly at the call boundary the Rust code uses;
* a Rust `panic!`/`expect` inside a visitor is modelled by `Option`
  (`none` = aborted); `Result` values are modelled by `Except`;
* the store is modelled by the read oracles the code consults plus a
  trace `writes` of the atomic `write(batch)` calls.
-/

namespace Electrs

abbrev Byte := Nat

abbrev Txid := Nat

abbrev Header := Nat

abbrev PubKey := Nat

/-- 32-byte block hash, mirroring the Rust `BlockHash` (`[u8; 32]`). -/
abbrev BlockHash := { l : List Byte // l.length = 32 }

/-- 33-byte compressed elliptic-curve point, mirroring `PublicKey::serialize`. -/
abbrev Point := { l : List Byte // l.length = 33 }

/-- An output script together with the two external predicates from the
`bitcoin` crate that `index.rs` consults on it. -/
structure Script where
  bytes : List Byte
  is_provably_unspendable : Bool
  is_p2tr : Bool
deriving DecidableEq

/-- `bitcoin::OutPoint`. -/
structure OutPoint where
  txid : Txid
  vout : Nat
deriving DecidableEq

/-- `OutPoint::is_null`: the coinbase marker (all-zero txid, vout `u32::MAX`).
The all-zero txid is modelled by `0`. -/
def OutPoint.is_null (o : OutPoint) : Bool :=
  o.txid == 0 && o.vout == 4294967295

structure TxOut where
  script_pubkey : Script
deriving DecidableEq

structure TxIn where
  previous_output : OutPoint
  script_sig : List Byte
  witness : List (List Byte)
deriving DecidableEq

/-- A parsed transaction; `txid` is carried as data (in the Rust code it is
recomputed from the serialized bytes by `bsl_txid`). -/
structure Transaction where
  txid : Txid
  input : List TxIn
  output : List TxOut
deriving DecidableEq

/-- `bitcoin::Transaction::is_coinbase`:
`input.len() == 1 && input[0].previous_output.is_null()`. -/
def Transaction.is_coinbase (tx : Transaction) : Bool :=
  tx.input.length == 1 && ((tx.input.head?.map (fun i => i.previous_output.is_null)).getD false)

/-- A consensus-valid block (the daemon is trusted, so blocks always parse). -/
structure Block where
  header : Header
  txdata : List Transaction
deriving DecidableEq

/-- `ScriptHash::new` hashes the script; the external hash is modelled by the
script itself (an injective tag — collision behaviour is out of core scope). -/
abbrev ScriptHash := Script

def ScriptHash.new (s : Script) : ScriptHash := s

/-- One row of the by-txid family (`TxidRow::row(txid, height)`). -/
structure TxidRow where
  txid : Txid
  height : Nat
deriving DecidableEq

/-- One row of the by-funding-script family. -/
structure ScriptHashRow where
  script_hash : ScriptHash
  height : Nat
deriving DecidableEq

/-- One row of the by-spending-outpoint family. -/
structure SpendingRowRecord where
  prevout : OutPoint
  height : Nat
deriving DecidableEq

/-- One header row. -/
structure HeaderRow where
  header : Header
deriving DecidableEq

/-- `db::WriteBatch`. -/
structure WriteBatch where
  funding_rows : List ScriptHashRow := []
  spending_rows : List SpendingRowRecord := []
  txid_rows : List TxidRow := []
  header_rows : List HeaderRow := []
  tip_row : List Byte := []
  tweak_rows : List Byte := []
deriving DecidableEq

instance : Inhabited WriteBatch := ⟨{}⟩

/-- `bitcoin::consensus::serialize` of a block hash: its 32 bytes. -/
def serialize_block_hash (h : BlockHash) : List Byte := h.val

/-! ## Standard block visitor (`index_single_block`, lines 326-379) -/

/-- `visit_transaction` of the standard visitor: one txid row per transaction
(including the coinbase). -/
def visit_transaction_std (height : Nat) (batch : WriteBatch) (tx : Transaction) : WriteBatch :=
  { batch with txid_rows := batch.txid_rows ++ [⟨tx.txid, height⟩] }

/-- `visit_tx_out`: one funding row per output, skipping provably
unspendable scripts. -/
def visit_tx_out (height : Nat) (batch : WriteBatch) (txo : TxOut) : WriteBatch :=
  if !txo.script_pubkey.is_provably_unspendable then
    { batch with funding_rows := batch.funding_rows ++ [⟨ScriptHash.new txo.script_pubkey, height⟩] }
  else batch

/-- `visit_tx_in`: one spending row per input, skipping the null (coinbase)
previous outpoint. -/
def visit_tx_in (height : Nat) (batch : WriteBatch) (txi : TxIn) : WriteBatch :=
  if !txi.previous_output.is_null then
    { batch with spending_rows := batch.spending_rows ++ [⟨txi.previous_output, height⟩] }
  else batch

/-- `visit_block_header`: one header row for the block. -/
def visit_block_header (batch : WriteBatch) (h : Header) : WriteBatch :=
  { batch with header_rows := batch.header_rows ++ [⟨h⟩] }

/-- The standard visitor's work for one transaction: the txid row, then the
per-input and per-output rows (each family keeps block order). -/
def index_tx (height : Nat) (batch : WriteBatch) (tx : Transaction) : WriteBatch :=
  tx.output.foldl (visit_tx_out height)
    (tx.input.foldl (visit_tx_in height) (visit_transaction_std height batch tx))

/-- `index_single_block(block_hash, block, height, batch)`: stream the block
through the standard visitor, then overwrite the batch's tip marker with the
serialized block hash. -/
def index_single_block (block_hash : BlockHash) (block : Block) (height : Nat)
    (batch : WriteBatch) : WriteBatch :=
  let b := block.txdata.foldl (index_tx height) (visit_block_header batch block.header)
  { b with tip_row := serialize_block_hash block_hash }

/-! ## Bounded query (`limit_result`, lines 132-142) -/

/-- `Index::limit_result` seen at the iterator boundary: the fused row
iterator is a list; `take` models `by_ref().take(lookup_limit)`, and the
trailing `entries.next().is_some()` check is a check that anything remains. -/
def limit_result {T : Type} (lookup_limit : Option Nat) (entries : List T) :
    Except String (List T) :=
  let result : List T :=
    match lookup_limit with
    | some l => entries.take l
    | none => entries
  let remaining : List T :=
    match lookup_limit with
    | some l => entries.drop l
    | none => []
  if remaining.isEmpty then Except.ok result
  else Except.error (">" ++ toString result.length ++ " index entries, query may take too long")

/-! ## Silent-payments block visitor
(`scan_single_block_for_silent_payments`, lines 381-478) -/

/-- `sp::VinData`, handed to the external input classifier. -/
structure VinData where
  script_sig : List Byte
  txinwitness : List (List Byte)
  script_pub_key : List Byte
deriving DecidableEq

/-- The in-memory chain view, reduced to the query contract `index.rs` uses.
The `expect`-guarded lookups (`get_block_height`, `get_block_header`) are
modelled as total oracles (the Rust code aborts when they fail). -/
structure Chain where
  height : Nat
  get_block_header : Nat → Header
  get_block_height : BlockHash → Nat
  get_block_hash : Nat → Option BlockHash

/-- `daemon::NewHeader`: a header together with its height and hash. -/
structure NewHeader where
  header : Header
  height : Nat
  hash : BlockHash
deriving DecidableEq

/-- `NewHeader::from((header, height))`; the hash is computed from the header
by the external hash function `bhOf`. -/
def NewHeader.fromParts (bhOf : Header → BlockHash) (h : Header) (height : Nat) : NewHeader :=
  ⟨h, height, bhOf h⟩

/-- The persistent store, reduced to the read oracles `index.rs` consults plus
a trace of the atomic batch writes and a flush counter.
`spending_has o` models `iter_spending(SpendingPrefixRow::scan(o)).next().is_some()`,
and `last_sp` is the deserialized sp-tip bookmark. -/
structure DBStore where
  tip : Option BlockHash
  read_headers : List Header
  last_sp : Option BlockHash
  spending_has : OutPoint → Bool
  writes : List WriteBatch := []
  flush_count : Nat := 0

def DBStore.write (s : DBStore) (b : WriteBatch) : DBStore :=
  { s with writes := s.writes ++ [b] }

def DBStore.flush (s : DBStore) : DBStore :=
  { s with flush_count := s.flush_count + 1 }

/-- External collaborators of the orchestrator: the daemon, the chain-view
algorithms, the silent-payments crate and the row-codec sort. -/
structure Env where
  block_hash_of : Header → BlockHash
  get_block : BlockHash → Block
  get_transaction : Txid → Option Transaction
  get_pubkey_from_input : VinData → Except Unit (Option PubKey)
  tweak_data : List PubKey → List (Txid × Nat) → Option Point
  get_new_headers : Chain → List NewHeader
  chain_update : Chain → List NewHeader → Chain
  chain_load : Chain → List Header → BlockHash → Chain
  drop_last_headers : Chain → Nat → Chain
  sort_batch : WriteBatch → WriteBatch

/-- The candidacy loop (lines 404-421): iterate the outputs with their index
`i`, and stop with `to_scan = true` at the first P2TR output whose outpoint
`(txid, i)` has no entry in the spending index. -/
def sp_to_scan (spending_has : OutPoint → Bool) (txid : Txid) :
    Nat → List TxOut → Bool
  | _, [] => false
  | i, o :: rest =>
    if o.script_pubkey.is_p2tr && !(spending_has ⟨txid, i⟩) then true
    else sp_to_scan spending_has txid (i + 1) rest

/-- The per-input key extraction loop (lines 430-455): resolve each input's
previous output via the daemon and run the input classifier; `Ok(None)` skips
the input, `Err`/missing previous data is a panic (`none`). -/
def sp_extract (env : Env) : List TxIn → Option (List PubKey)
  | [] => some []
  | i :: rest =>
    match env.get_transaction i.previous_output.txid with
    | none => none
    | some prev_tx =>
      match prev_tx.output.get? i.previous_output.vout with
      | none => none
      | some prevout =>
        match env.get_pubkey_from_input
            ⟨i.script_sig, i.witness, prevout.script_pubkey.bytes⟩ with
        | Except.error _ => none
        | Except.ok none => sp_extract env rest
        | Except.ok (some pk) => (sp_extract env rest).map (fun ks => pk :: ks)

/-- The transaction's full `(previous-txid, previous-vout)` list (line 432;
the `Txid::to_string` formatting for the external crate is elided). -/
def outpoint_pairs (tx : Transaction) : List (Txid × Nat) :=
  tx.input.map (fun i => (i.previous_output.txid, i.previous_output.vout))

/-- Key extraction plus tweak aggregation for one qualifying transaction
(lines 427-463): if any candidate key was recovered, append the serialized
tweak point to the running tweak buffer. -/
def sp_scan_inputs (env : Env) (tweaks : List Byte) (tx : Transaction) :
    Option (List Byte) :=
  match sp_extract env tx.input with
  | none => none
  | some pubkeys =>
    if pubkeys.isEmpty then some tweaks
    else
      match env.tweak_data pubkeys (outpoint_pairs tx) with
      | none => none
      | some tweak => some (tweaks ++ tweak.val)

/-- `visit_transaction` of the silent-payments visitor (lines 395-466). -/
def sp_visit_transaction (env : Env) (store : DBStore) (tweaks : List Byte)
    (tx : Transaction) : Option (List Byte) :=
  if tx.is_coinbase then some tweaks
  else if !(sp_to_scan store.spending_has tx.txid 0 tx.output) then some tweaks
  else sp_scan_inputs env tweaks tx

/-- `scan_single_block_for_silent_payments` (lines 469-477): seed the tweak
buffer with the 32 bytes of the block hash, fold the visitor over the block's
transactions, and replace the batch's tweak payload with the result. -/
def scan_single_block_for_silent_payments (env : Env) (store : DBStore)
    (block_hash : BlockHash) (block : Block) (batch : WriteBatch) :
    Option WriteBatch :=
  match block.txdata.foldlM (sp_visit_transaction env store) block_hash.val with
  | none => none
  | some tweaks => some { batch with tweak_rows := tweaks }

/-! ## Index orchestrator (`Index`, lines 85-320) -/

structure Index where
  store : DBStore
  batch_size : Nat
  lookup_limit : Option Nat
  chain : Chain
  is_ready : Bool
  flush_needed : Bool

/-- `Index::load` (lines 96-126). -/
def Index.load (env : Env) (store : DBStore) (chain : Chain) (batch_size : Nat)
    (lookup_limit : Option Nat) (reindex_last_blocks : Nat) : Index :=
  let chain :=
    match store.tip with
    | some tip => env.drop_last_headers (env.chain_load chain store.read_headers tip)
        reindex_last_blocks
    | none => chain
  { store, batch_size, lookup_limit, chain, is_ready := false, flush_needed := false }

/-- `slice::chunks` with fuel (`l.length`): splits a list into consecutive
chunks of `n` elements, the last chunk possibly shorter. -/
def listChunksAux (n : Nat) : Nat → List NewHeader → List (List NewHeader)
  | 0, _ => []
  | _ + 1, [] => []
  | fuel + 1, x :: xs => (x :: xs).take n :: listChunksAux n fuel ((x :: xs).drop n)

/-- `new_headers.chunks(batch_size)` (`chunks(0)` panics in Rust; modelled as
no chunks, with `0 < batch_size` assumed where it matters). -/
def listChunks (n : Nat) (l : List NewHeader) : List (List NewHeader) :=
  if n = 0 then [] else listChunksAux n l.length l

/-- `chunk.first().unwrap().height()` (lines 221 and 258). -/
def chunk_first_height (c : List NewHeader) : Nat :=
  ((c.head?.map (fun nh => nh.height)).getD 0)

/-- The standard-path batch of one chunk: all blocks of the chunk streamed
through `index_single_block` into one fresh batch (lines 276-284). -/
def chunk_batch_std (env : Env) (chunk : List NewHeader) : WriteBatch :=
  chunk.foldl
    (fun b nh => index_single_block nh.hash (env.get_block nh.hash) nh.height b) {}

/-- The silent-payments-path batch of one chunk: all blocks of the chunk
streamed through `scan_single_block_for_silent_payments` into one fresh batch
(lines 286-300); `none` models a panic inside a scan. -/
def chunk_batch_sp (env : Env) (store : DBStore) (chunk : List NewHeader) :
    Option WriteBatch :=
  chunk.foldlM
    (fun b nh =>
      scan_single_block_for_silent_payments env store nh.hash (env.get_block nh.hash) b) {}

/-- `Index::sync_blocks` (lines 269-315): build one batch for the chunk —
through the standard visitor when `is_ready` is false, through the
silent-payments visitor otherwise — sort it and write it atomically. -/
def sync_blocks (env : Env) (idx : Index) (chunk : List NewHeader) : Option Index :=
  if !idx.is_ready then
    some { idx with store := idx.store.write (env.sort_batch (chunk_batch_std env chunk)) }
  else
    match chunk_batch_sp env idx.store chunk with
    | none => none
    | some batch => some { idx with store := idx.store.write (env.sort_batch batch) }

/-- The shared chunk loop of `sync` and `silent_payments_sync` (lines 217-225
and 254-261): before each chunk, poll the exit flag (its successive outcomes
are `polls 0`, `polls 1`, …; `true` means shutdown was requested); on a raised
flag stop with the first height of the pending chunk; otherwise process the
chunk via `sync_blocks`. `none` models a panic inside a chunk. -/
def run_chunks (env : Env) (polls : Nat → Bool) :
    Index → List (List NewHeader) → Nat → Option (Index × Option Nat)
  | idx, [], _ => some (idx, none)
  | idx, chunk :: rest, k =>
    if polls k then some (idx, some (chunk_first_height chunk))
    else
      match sync_blocks env idx chunk with
      | none => none
      | some idx1 => run_chunks env polls idx1 rest (k + 1)

/-- The resume cursor of `silent_payments_sync` (lines 177-183): one past the
persisted sp-tip's height, or the activation floor 70000. -/
def sp_start (idx : Index) : Nat :=
  match idx.store.last_sp with
  | some bh => idx.chain.get_block_height bh + 1
  | none => 70000

/-- The (exclusive) end of the scan window (lines 184-188). -/
def sp_end (idx : Index) : Nat :=
  if sp_start idx + 2000 < idx.chain.height then sp_start idx + 2000
  else idx.chain.height

/-- The headers gathered by the loop of lines 189-197: heights
`sp_start, …, sp_end - 1`, each with its header from the chain view. -/
def sp_new_headers (env : Env) (idx : Index) : List NewHeader :=
  (List.range' (sp_start idx) (sp_end idx - sp_start idx)).map
    (fun h => NewHeader.fromParts env.block_hash_of (idx.chain.get_block_header h) h)

/-- `Index::silent_payments_sync` (lines 171-228). The pair's second component
is the Rust `Result<bool>`: `Except.error h` is the "indexing interrupted at
height h" error, `Except.ok` the normal return. `none` models a panic. -/
def silent_payments_sync (env : Env) (polls : Nat → Bool) (idx : Index) :
    Option (Index × Except Nat Bool) :=
  let new_headers := sp_new_headers env idx
  if new_headers.isEmpty then
    let idx1 :=
      if idx.flush_needed then { idx with store := idx.store.flush, flush_needed := false }
      else idx
    some ({ idx1 with is_ready := true }, Except.ok true)
  else
    match run_chunks env polls idx (listChunks idx.batch_size new_headers) 0 with
    | none => none
    | some (idx1, some h) => some (idx1, Except.error h)
    | some (idx1, none) => some ({ idx1 with flush_needed := true }, Except.ok false)

/-- `Index::sync` (lines 231-267). On the empty-headers path the
compaction-on-flush block is commented out in the source, so only `is_ready`
changes there. -/
def sync (env : Env) (polls : Nat → Bool) (idx : Index) :
    Option (Index × Except Nat Bool) :=
  let new_headers := env.get_new_headers idx.chain
  if new_headers.isEmpty then
    some ({ idx with is_ready := true }, Except.ok true)
  else
    match run_chunks env polls idx (listChunks idx.batch_size new_headers) 0 with
    | none => none
    | some (idx1, some h) => some (idx1, Except.error h)
    | some (idx1, none) =>
      some ({ idx1 with
                chain := env.chain_update idx1.chain new_headers
                flush_needed := true },
        Except.ok false)

/-! ## Helper lemmas: the standard visitor as a closed-form fold -/

/-- Funding rows the standard visitor emits for a list of outputs. -/
def funding_rows_of (h : Nat) (outs : List TxOut) : List ScriptHashRow :=
  (outs.filter (fun o => !o.script_pubkey.is_provably_unspendable)).map
    (fun o => ⟨ScriptHash.new o.script_pubkey, h⟩)

/-- Spending rows the standard visitor emits for a list of inputs. -/
def spending_rows_of (h : Nat) (ins : List TxIn) : List SpendingRowRecord :=
  (ins.filter (fun i => !i.previous_output.is_null)).map
    (fun i => ⟨i.previous_output, h⟩)

/-- Rows contributed by one transaction to the funding family. -/
def tx_funding_rows (h : Nat) (tx : Transaction) : List ScriptHashRow :=
  funding_rows_of h tx.output

/-- Rows contributed by one transaction to the spending family. -/
def tx_spending_rows (h : Nat) (tx : Transaction) : List SpendingRowRecord :=
  spending_rows_of h tx.input

theorem foldl_visit_tx_in (h : Nat) :
    ∀ (ins : List TxIn) (b : WriteBatch),
      ins.foldl (visit_tx_in h) b =
        { b with spending_rows := b.spending_rows ++ spending_rows_of h ins }
  | [], b => by simp [spending_rows_of]
  | i :: ins, b => by
    cases hn : i.previous_output.is_null <;>
      simp [visit_tx_in, hn, foldl_visit_tx_in h ins, spending_rows_of, List.filter_cons]

theorem foldl_visit_tx_out (h : Nat) :
    ∀ (outs : List TxOut) (b : WriteBatch),
      outs.foldl (visit_tx_out h) b =
        { b with funding_rows := b.funding_rows ++ funding_rows_of h outs }
  | [], b => by simp [funding_rows_of]
  | o :: outs, b => by
    cases hu : o.script_pubkey.is_provably_unspendable <;>
      simp [visit_tx_out, hu, foldl_visit_tx_out h outs, funding_rows_of, List.filter_cons]

theorem index_tx_char (h : Nat) (b : WriteBatch) (tx : Transaction) :
    index_tx h b tx =
      { b with
          txid_rows := b.txid_rows ++ [⟨tx.txid, h⟩]
          funding_rows := b.funding_rows ++ tx_funding_rows h tx
          spending_rows := b.spending_rows ++ tx_spending_rows h tx } := by
  cases b
  simp [index_tx, visit_transaction_std, foldl_visit_tx_in, foldl_visit_tx_out,
    tx_funding_rows, tx_spending_rows]

theorem foldl_index_tx (h : Nat) :
    ∀ (txs : List Transaction) (b : WriteBatch),
      txs.foldl (index_tx h) b =
        { b with
            txid_rows := b.txid_rows ++ txs.map (fun tx => ⟨tx.txid, h⟩)
            funding_rows := b.funding_rows ++ txs.flatMap (tx_funding_rows h)
            spending_rows := b.spending_rows ++ txs.flatMap (tx_spending_rows h) }
  | [], b => by simp
  | tx :: txs, b => by
    rw [List.foldl_cons, index_tx_char, foldl_index_tx h txs]
    cases b
    simp

theorem index_single_block_char (bh : BlockHash) (blk : Block) (h : Nat)
    (batch : WriteBatch) :
    index_single_block bh blk h batch =
      { batch with
          txid_rows := batch.txid_rows ++ blk.txdata.map (fun tx => ⟨tx.txid, h⟩)
          funding_rows := batch.funding_rows ++ blk.txdata.flatMap (tx_funding_rows h)
          spending_rows := batch.spending_rows ++ blk.txdata.flatMap (tx_spending_rows h)
          header_rows := batch.header_rows ++ [⟨blk.header⟩]
          tip_row := serialize_block_hash bh } := by
  cases batch
  simp [index_single_block, visit_block_header, foldl_index_tx]

/-! ## Claim C4 -/

/-- Claim C4: with a configured limit `L`, a row iterator yielding exactly `L`
entries makes `limit_result` return `Ok` with all `L` entries, and an iterator
yielding `L + 1` or more entries makes it return a "too large" error instead
of a truncated result. -/
theorem claim_C4 {T : Type} (L : Nat) (entries : List T) :
    (entries.length = L → limit_result (some L) entries = Except.ok entries) ∧
    (L < entries.length → ∃ msg, limit_result (some L) entries = Except.error msg) := by
  constructor
  · intro h
    have hd : entries.drop L = [] := by
      rw [List.drop_eq_nil_iff]
      omega
    have ht : entries.take L = entries := List.take_of_length_le (by omega)
    simp [limit_result, hd, ht]
  · intro h
    have hd : ¬ ((entries.drop L).isEmpty = true) := by
      simp only [List.isEmpty_iff, List.drop_eq_nil_iff]
      omega
    exact ⟨_, by simp only [limit_result]; rw [if_neg hd]⟩

/-- Witness for C4 at `L = 2`: `[1, 2]` succeeds with both entries,
`[1, 2, 3]` raises the "too large" error. -/
theorem claim_C4_witness :
    limit_result (some 2) ([1, 2] : List Nat) = Except.ok [1, 2] ∧
    (∃ msg, limit_result (some 2) ([1, 2, 3] : List Nat) = Except.error msg) :=
  ⟨(claim_C4 2 [1, 2]).1 rfl, (claim_C4 2 [1, 2, 3]).2 (by decide)⟩

/-! ## Claim C8 -/

/-- Claim C8: for every block processed by the standard visitor at height `h`,
exactly one txid row is emitted per transaction (coinbase included), one
funding row per output whose script is not provably unspendable, one spending
row per input whose previous outpoint is not the null coinbase marker, and one
header row for the block — all carrying height `h`, appended in block order. -/
theorem claim_C8 (bh : BlockHash) (blk : Block) (h : Nat) (batch : WriteBatch) :
    (index_single_block bh blk h batch).txid_rows =
        batch.txid_rows ++ blk.txdata.map (fun tx => ⟨tx.txid, h⟩) ∧
    (index_single_block bh blk h batch).funding_rows =
        batch.funding_rows ++ blk.txdata.flatMap (fun tx =>
          (tx.output.filter (fun o => !o.script_pubkey.is_provably_unspendable)).map
            (fun o => ⟨ScriptHash.new o.script_pubkey, h⟩)) ∧
    (index_single_block bh blk h batch).spending_rows =
        batch.spending_rows ++ blk.txdata.flatMap (fun tx =>
          (tx.input.filter (fun i => !i.previous_output.is_null)).map
            (fun i => ⟨i.previous_output, h⟩)) ∧
    (index_single_block bh blk h batch).header_rows =
        batch.header_rows ++ [⟨blk.header⟩] := by
  rw [index_single_block_char]
  exact ⟨rfl, rfl, rfl, rfl⟩

/-! ## Claim C9 -/

/-- Claim C9: `index_single_block` only appends to the four row families
(pre-existing batch rows are preserved as a prefix), overwrites the batch's
tip marker with the serialized hash of the visited block — so after a chunk
the tip marker is the last visited block's hash — and leaves every other
batch field (the tweak payload) unchanged. -/
theorem claim_C9 (bh : BlockHash) (blk : Block) (h : Nat) (batch : WriteBatch) :
    (∃ f, (index_single_block bh blk h batch).funding_rows = batch.funding_rows ++ f) ∧
    (∃ s, (index_single_block bh blk h batch).spending_rows = batch.spending_rows ++ s) ∧
    (∃ t, (index_single_block bh blk h batch).txid_rows = batch.txid_rows ++ t) ∧
    (∃ hr, (index_single_block bh blk h batch).header_rows = batch.header_rows ++ hr) ∧
    (index_single_block bh blk h batch).tip_row = serialize_block_hash bh ∧
    (index_single_block bh blk h batch).tweak_rows = batch.tweak_rows ∧
    (∀ (env : Env) (c : List NewHeader) (nh : NewHeader),
      (chunk_batch_std env (c ++ [nh])).tip_row = serialize_block_hash nh.hash) := by
  rw [index_single_block_char]
  refine ⟨⟨_, rfl⟩, ⟨_, rfl⟩, ⟨_, rfl⟩, ⟨_, rfl⟩, rfl, rfl, ?_⟩
  intro env c nh
  rw [chunk_batch_std, List.foldl_append, List.foldl_cons, List.foldl_nil,
    index_single_block_char]

/-! ## Claim C7 -/

theorem sp_new_headers_heights (env : Env) (idx : Index) :
    (sp_new_headers env idx).map (fun nh => nh.height) =
      List.range' (sp_start idx) (sp_end idx - sp_start idx) := by
  unfold sp_new_headers
  rw [List.map_map]
  exact List.map_id' _

theorem sp_window_min (idx : Index) :
    sp_end idx - sp_start idx = min 2000 (idx.chain.height - sp_start idx) := by
  unfold sp_end
  split <;> omega

/-- Claim C7: each `silent_payments_sync` call resumes its cursor at the
persisted sp-tip's height plus one (or at the activation floor 70000 when no
sp-tip exists) and gathers at most 2000 heights, every one strictly below the
standard chain view's current tip height. -/
theorem claim_C7 (env : Env) (idx : Index) :
    ((sp_new_headers env idx).map (fun nh => nh.height)).length ≤ 2000 ∧
    (∀ h ∈ (sp_new_headers env idx).map (fun nh => nh.height), h < idx.chain.height) ∧
    (idx.store.last_sp = none →
      (sp_new_headers env idx).map (fun nh => nh.height) =
        List.range' 70000 (min 2000 (idx.chain.height - 70000))) ∧
    (∀ bh, idx.store.last_sp = some bh →
      (sp_new_headers env idx).map (fun nh => nh.height) =
        List.range' (idx.chain.get_block_height bh + 1)
          (min 2000 (idx.chain.height - (idx.chain.get_block_height bh + 1)))) := by
  have hh := sp_new_headers_heights env idx
  have hmin := sp_window_min idx
  refine ⟨?_, ?_, ?_, ?_⟩
  · rw [hh, List.length_range']
    omega
  · intro h hmem
    rw [hh, hmin] at hmem
    have hb := List.mem_range'_1.mp hmem
    omega
  · intro hnone
    have hs : sp_start idx = 70000 := by unfold sp_start; rw [hnone]
    rw [hh, hmin, hs]
  · intro bh hsome
    have hs : sp_start idx = idx.chain.get_block_height bh + 1 := by
      unfold sp_start; rw [hsome]
    rw [hh, hmin, hs]

/-! ## Shared concrete objects for witnesses and counterexamples -/

/-- A plain, spendable, non-taproot output script. -/
def script0 : Script := ⟨[], false, false⟩

/-- A taproot output script. -/
def scriptTR : Script := ⟨[81, 32], false, true⟩

def bh0 : BlockHash := ⟨List.replicate 32 0, by simp⟩

def pt0 : Point := ⟨List.replicate 33 1, by simp⟩

/-- One ordinary (non-coinbase) transaction spending outpoint `(5, 0)` into a
plain output. -/
def tx0 : Transaction := ⟨1, [⟨⟨5, 0⟩, [], []⟩], [⟨script0⟩]⟩

def block0 : Block := ⟨7, [tx0]⟩

def chain0 (ht : Nat) : Chain := ⟨ht, fun h => h, fun _ => 0, fun _ => none⟩

def store0 : DBStore := ⟨none, [], none, fun _ => false, [], 0⟩

def envA : Env where
  block_hash_of := fun _ => bh0
  get_block := fun _ => block0
  get_transaction := fun _ => some ⟨9, [], [⟨script0⟩]⟩
  get_pubkey_from_input := fun _ => Except.ok none
  tweak_data := fun _ _ => some pt0
  get_new_headers := fun _ => []
  chain_update := fun c _ => c
  chain_load := fun c _ _ => c
  drop_last_headers := fun c _ => c
  sort_batch := fun b => b

def pollsF : Nat → Bool := fun _ => false

/-- An index whose chain tip is at height 70002, not yet ready, no sp-tip. -/
def idxB : Index := ⟨store0, 2, none, chain0 70002, false, false⟩

/-- Witness for C7: with no sp-tip and tip height 70002 the scanned heights
are exactly `[70000, 70001]`, strictly below the tip. -/
theorem claim_C7_witness :
    ((sp_new_headers envA idxB).map (fun nh => nh.height) =
      List.range' 70000 (min 2000 (70002 - 70000))) ∧
    (∀ h ∈ (sp_new_headers envA idxB).map (fun nh => nh.height), h < 70002) :=
  ⟨(claim_C7 envA idxB).2.2.1 rfl, (claim_C7 envA idxB).2.1⟩

/-! ## Helper lemmas: one write per chunk, frame of the chunk loop -/

/-- `sync_blocks` performs exactly one atomic batch write: the sorted batch of
the whole chunk, built by the standard visitor when `is_ready` is false and by
the silent-payments visitor when it is true. -/
theorem sync_blocks_char (env : Env) (idx : Index) (c : List NewHeader) (idx' : Index)
    (h : sync_blocks env idx c = some idx') :
    ∃ b, idx' = { idx with store := idx.store.write b } ∧
      ((idx.is_ready = false ∧ b = env.sort_batch (chunk_batch_std env c)) ∨
       (idx.is_ready = true ∧
         ∃ b0, chunk_batch_sp env idx.store c = some b0 ∧ b = env.sort_batch b0)) := by
  cases hr : idx.is_ready with
  | false =>
    rw [sync_blocks, hr] at h
    simp only [Bool.not_false, if_true] at h
    exact ⟨_, (Option.some_injective _ h).symm, Or.inl ⟨rfl, rfl⟩⟩
  | true =>
    rw [sync_blocks, hr] at h
    simp only [Bool.not_true, if_false] at h
    cases hsp : chunk_batch_sp env idx.store c with
    | none => rw [hsp] at h; cases h
    | some b0 =>
      rw [hsp] at h
      exact ⟨_, (Option.some_injective _ h).symm, Or.inr ⟨rfl, b0, rfl, rfl⟩⟩

/-- The chunk loop changes nothing but the store's write trace, to which it
only appends. -/
theorem run_chunks_fields (env : Env) (polls : Nat → Bool) :
    ∀ (chunks : List (List NewHeader)) (idx : Index) (k : Nat) (idx' : Index)
      (r : Option Nat),
      run_chunks env polls idx chunks k = some (idx', r) →
      idx'.is_ready = idx.is_ready ∧ idx'.chain = idx.chain ∧
      idx'.batch_size = idx.batch_size ∧ idx'.lookup_limit = idx.lookup_limit ∧
      idx'.flush_needed = idx.flush_needed ∧
      idx'.store.last_sp = idx.store.last_sp ∧
      idx'.store.spending_has = idx.store.spending_has ∧
      idx'.store.tip = idx.store.tip ∧
      idx'.store.read_headers = idx.store.read_headers ∧
      idx'.store.flush_count = idx.store.flush_count ∧
      ∃ bs, idx'.store.writes = idx.store.writes ++ bs
  | [], idx, k, idx', r, h => by
    rw [run_chunks] at h
    obtain ⟨h1, h2⟩ := Prod.mk.injEq .. ▸ Option.some_injective _ h
    subst h1
    exact ⟨rfl, rfl, rfl, rfl, rfl, rfl, rfl, rfl, rfl, rfl, [], (List.append_nil _).symm⟩
  | c :: rest, idx, k, idx', r, h => by
    rw [run_chunks] at h
    by_cases hp : polls k
    · rw [if_pos hp] at h
      obtain ⟨h1, h2⟩ := Prod.mk.injEq .. ▸ Option.some_injective _ h
      subst h1
      exact ⟨rfl, rfl, rfl, rfl, rfl, rfl, rfl, rfl, rfl, rfl, [], (List.append_nil _).symm⟩
    · rw [if_neg hp] at h
      cases hsb : sync_blocks env idx c with
      | none => rw [hsb] at h; cases h
      | some idx1 =>
        rw [hsb] at h
        obtain ⟨b, hb, _⟩ := sync_blocks_char env idx c idx1 hsb
        have ih := run_chunks_fields env polls rest idx1 (k + 1) idx' r h
        subst hb
        obtain ⟨i1, i2, i3, i4, i5, i6, i7, i8, i9, i10, bs, hbs⟩ := ih
        refine ⟨i1, i2, i3, i4, i5, i6, i7, i8, i9, i10, b :: bs, ?_⟩
        rw [hbs]
        simp [DBStore.write]

/-! ## Claim C10 -/

/-- Claim C10: `is_ready` is one flag shared by both sync passes; it starts
false at `Index::load`, is set to true by either `sync` or
`silent_payments_sync` exactly when that pass finds no blocks to process, and
no operation of `Index` ever resets it to false (the query methods take
`&self` and cannot mutate; the mutating operations are covered below), so it
is monotone. -/
theorem claim_C10 :
    (∀ (env : Env) (store : DBStore) (chain : Chain) (bs : Nat) (ll : Option Nat)
        (rb : Nat), (Index.load env store chain bs ll rb).is_ready = false) ∧
    (∀ (env : Env) (polls : Nat → Bool) (idx idx' : Index) (r : Except Nat Bool),
      sync env polls idx = some (idx', r) → idx.is_ready = true → idx'.is_ready = true) ∧
    (∀ (env : Env) (polls : Nat → Bool) (idx idx' : Index) (r : Except Nat Bool),
      silent_payments_sync env polls idx = some (idx', r) →
        idx.is_ready = true → idx'.is_ready = true) ∧
    (∀ (env : Env) (idx : Index) (c : List NewHeader) (idx' : Index),
      sync_blocks env idx c = some idx' → idx.is_ready = true → idx'.is_ready = true) ∧
    (∀ (env : Env) (polls : Nat → Bool) (idx : Index),
      env.get_new_headers idx.chain = [] →
      ∃ idx', sync env polls idx = some (idx', Except.ok true) ∧ idx'.is_ready = true) ∧
    (∀ (env : Env) (polls : Nat → Bool) (idx : Index),
      sp_new_headers env idx = [] →
      ∃ idx', silent_payments_sync env polls idx = some (idx', Except.ok true) ∧
        idx'.is_ready = true) := by
  refine ⟨?_, ?_, ?_, ?_, ?_, ?_⟩
  · intro env store chain bs ll rb
    rfl
  · intro env polls idx idx' r hs hr
    rw [sync] at hs
    by_cases he : (env.get_new_headers idx.chain).isEmpty
    · rw [if_pos he] at hs
      obtain ⟨h1, _⟩ := Prod.mk.injEq .. ▸ Option.some_injective _ hs
      rw [← h1]
    · rw [if_neg he] at hs
      cases hrc : run_chunks env polls idx
          (listChunks idx.batch_size (env.get_new_headers idx.chain)) 0 with
      | none => rw [hrc] at hs; cases hs
      | some p =>
        obtain ⟨idx1, r1⟩ := p
        rw [hrc] at hs
        have hf := (run_chunks_fields env polls _ idx 0 idx1 r1 hrc).1
        cases r1 with
        | some h =>
          obtain ⟨h1, _⟩ := Prod.mk.injEq .. ▸ Option.some_injective _ hs
          rw [← h1, hf, hr]
        | none =>
          obtain ⟨h1, _⟩ := Prod.mk.injEq .. ▸ Option.some_injective _ hs
          rw [← h1]
          show idx1.is_ready = true
          rw [hf, hr]
  · intro env polls idx idx' r hs hr
    rw [silent_payments_sync] at hs
    by_cases he : (sp_new_headers env idx).isEmpty
    · rw [if_pos he] at hs
      obtain ⟨h1, _⟩ := Prod.mk.injEq .. ▸ Option.some_injective _ hs
      rw [← h1]
    · rw [if_neg he] at hs
      cases hrc : run_chunks env polls idx
          (listChunks idx.batch_size (sp_new_headers env idx)) 0 with
      | none => rw [hrc] at hs; cases hs
      | some p =>
        obtain ⟨idx1, r1⟩ := p
        rw [hrc] at hs
        have hf := (run_chunks_fields env polls _ idx 0 idx1 r1 hrc).1
        cases r1 with
        | some h =>
          obtain ⟨h1, _⟩ := Prod.mk.injEq .. ▸ Option.some_injective _ hs
          rw [← h1, hf, hr]
        | none =>
          obtain ⟨h1, _⟩ := Prod.mk.injEq .. ▸ Option.some_injective _ hs
          rw [← h1]
          show idx1.is_ready = true
          rw [hf, hr]
  · intro env idx c idx' hs hr
    obtain ⟨b, hb, _⟩ := sync_blocks_char env idx c idx' hs
    rw [hb]
    exact hr
  · intro env polls idx he
    refine ⟨{ idx with is_ready := true }, ?_, rfl⟩
    rw [sync]
    rw [if_pos (by rw [he]; rfl)]
  · intro env polls idx he
    cases hf : idx.flush_needed with
    | true =>
      refine ⟨{ idx with store := idx.store.flush, flush_needed := false, is_ready := true },
        ?_, rfl⟩
      rw [silent_payments_sync, if_pos (by rw [he]; rfl), hf]
      rfl
    | false =>
      refine ⟨{ idx with is_ready := true }, ?_, rfl⟩
      rw [silent_payments_sync, if_pos (by rw [he]; rfl), hf]
      simp [hf]

/-- An already-ready index over an empty chain (no headers anywhere). -/
def idxR : Index := ⟨store0, 2, none, chain0 0, true, false⟩

/-- Witness for C10: with no new headers, `sync` reports fully-synced and sets
the flag; a ready index stays ready through `sync_blocks`. -/
theorem claim_C10_witness :
    (∃ idx', sync envA pollsF idxB = some (idx', Except.ok true) ∧
      idx'.is_ready = true) ∧
    (∃ idx', silent_payments_sync envA pollsF idxR = some (idx', Except.ok true) ∧
      idx'.is_ready = true) ∧
    (∀ idx', sync_blocks envA idxR [] = some idx' → idx'.is_ready = true) :=
  ⟨claim_C10.2.2.2.2.1 envA pollsF idxB rfl,
   claim_C10.2.2.2.2.2 envA pollsF idxR rfl,
   fun idx' h => claim_C10.2.2.2.1 envA idxR [] idx' h rfl⟩

/-! ## Claim C2 -/

/-- The candidacy loop computes exactly the spec's condition: some output,
taken with its index, is a P2TR script whose outpoint is not in the spending
index. -/
theorem sp_to_scan_iff (sh : OutPoint → Bool) (txid : Txid) :
    ∀ (outs : List TxOut) (i : Nat),
      sp_to_scan sh txid i outs = true ↔
        ∃ p ∈ outs.enumFrom i, p.2.script_pubkey.is_p2tr = true ∧ sh ⟨txid, p.1⟩ = false
  | [], i => by simp [sp_to_scan]
  | o :: outs, i => by
    rw [sp_to_scan, List.enumFrom_cons]
    by_cases hc : (o.script_pubkey.is_p2tr && !(sh ⟨txid, i⟩)) = true
    · rw [if_pos hc]
      simp only [Bool.and_eq_true, Bool.not_eq_true'] at hc
      simp only [List.mem_cons, true_iff]
      exact ⟨(i, o), Or.inl rfl, hc.1, hc.2⟩
    · rw [if_neg hc]
      rw [sp_to_scan_iff sh txid outs (i + 1)]
      simp only [Bool.and_eq_true, Bool.not_eq_true', not_and] at hc
      simp only [List.mem_cons]
      constructor
      · rintro ⟨p, hp, h1, h2⟩
        exact ⟨p, Or.inr hp, h1, h2⟩
      · rintro ⟨p, hp | hp, h1, h2⟩
        · subst hp
          exact absurd h2 (hc h1)
        · exact ⟨p, hp, h1, h2⟩

/-- Claim C2: the silent-payments visitor passes a transaction to per-input
key extraction (the `sp_scan_inputs` stage) iff it is not a coinbase and some
output is a P2TR script whose outpoint `(txid, index)` has no entry in the
spending index; otherwise the transaction is skipped and contributes nothing.
In particular a transaction with no taproot output, or whose taproot outputs
are all recorded as spent, never reaches key extraction. -/
theorem claim_C2 (env : Env) (store : DBStore) (tweaks : List Byte) (tx : Transaction) :
    (¬ tx.is_coinbase = true ∧
        (∃ p ∈ tx.output.enum, p.2.script_pubkey.is_p2tr = true ∧
          store.spending_has ⟨tx.txid, p.1⟩ = false) →
      sp_visit_transaction env store tweaks tx = sp_scan_inputs env tweaks tx) ∧
    ((tx.is_coinbase = true ∨
        (∀ p ∈ tx.output.enum, p.2.script_pubkey.is_p2tr = true →
          store.spending_has ⟨tx.txid, p.1⟩ = true)) →
      sp_visit_transaction env store tweaks tx = some tweaks) := by
  constructor
  · rintro ⟨hcb, hex⟩
    have hs : sp_to_scan store.spending_has tx.txid 0 tx.output = true := by
      rw [sp_to_scan_iff]
      rw [List.enum_eq_enumFrom] at hex
      exact hex
    rw [sp_visit_transaction, if_neg hcb, hs]
    rfl
  · intro h
    by_cases hcb : tx.is_coinbase = true
    · rw [sp_visit_transaction, if_pos hcb]
    · have hall : ∀ p ∈ tx.output.enum, p.2.script_pubkey.is_p2tr = true →
          store.spending_has ⟨tx.txid, p.1⟩ = true := h.resolve_left hcb
      have hs : sp_to_scan store.spending_has tx.txid 0 tx.output = false := by
        cases hval : sp_to_scan store.spending_has tx.txid 0 tx.output with
        | false => rfl
        | true =>
          obtain ⟨p, hp, h1, h2⟩ := (sp_to_scan_iff store.spending_has tx.txid tx.output 0).mp hval
          rw [← List.enum_eq_enumFrom] at hp
          rw [hall p hp h1] at h2
          cases h2
      rw [sp_visit_transaction, if_neg hcb, hs]
      rfl

/-- A non-coinbase transaction with one unspent taproot output. -/
def txTR : Transaction := ⟨2, [⟨⟨5, 0⟩, [], []⟩], [⟨scriptTR⟩]⟩

/-- Witness for C2: `txTR` (one unspent taproot output) reaches key
extraction; `tx0` (no taproot output) is skipped. -/
theorem claim_C2_witness :
    sp_visit_transaction envA store0 [] txTR = sp_scan_inputs envA [] txTR ∧
    sp_visit_transaction envA store0 [] tx0 = some [] :=
  ⟨(claim_C2 envA store0 [] txTR).1 ⟨by decide, ⟨(0, ⟨scriptTR⟩), by decide, by decide, by decide⟩⟩,
   (claim_C2 envA store0 [] tx0).2 (Or.inr (by decide))⟩

/-! ## Claim C3 -/

/-- The bytes one transaction contributes to the block's tweak payload:
nothing when skipped (coinbase or failed candidacy) or when no candidate key
was recovered, and otherwise the serialized tweak point derived from the
recovered keys together with the transaction's full outpoint-pair list. -/
def sp_tx_contribution (env : Env) (store : DBStore) (tx : Transaction) :
    Option (List Byte) :=
  if tx.is_coinbase then some []
  else if !(sp_to_scan store.spending_has tx.txid 0 tx.output) then some []
  else
    match sp_extract env tx.input with
    | none => none
    | some ks =>
      if ks.isEmpty then some []
      else (env.tweak_data ks (outpoint_pairs tx)).map (fun p => p.val)

theorem sp_visit_transaction_contrib (env : Env) (store : DBStore)
    (tweaks : List Byte) (tx : Transaction) :
    sp_visit_transaction env store tweaks tx =
      (sp_tx_contribution env store tx).map (fun c => tweaks ++ c) := by
  rw [sp_visit_transaction, sp_tx_contribution]
  by_cases hcb : tx.is_coinbase = true
  · simp [hcb]
  · rw [if_neg hcb, if_neg hcb]
    cases hts : sp_to_scan store.spending_has tx.txid 0 tx.output with
    | false => simp [hts]
    | true =>
      simp only [hts, Bool.not_true, Bool.false_eq_true, if_false]
      rw [sp_scan_inputs]
      cases hex : sp_extract env tx.input with
      | none => simp
      | some ks =>
        cases hke : ks.isEmpty <;> simp only [hke, if_true, if_false]
        · cases htw : env.tweak_data ks (outpoint_pairs tx) <;> simp
        · simp

theorem foldlM_sp_visit (env : Env) (store : DBStore) :
    ∀ (txs : List Transaction) (init : List Byte),
      txs.foldlM (sp_visit_transaction env store) init =
        (txs.mapM (sp_tx_contribution env store)).map (fun cs => init ++ cs.flatten)
  | [], init => by
    rw [List.foldlM_nil, List.mapM_nil]
    simp
  | tx :: txs, init => by
    rw [List.foldlM_cons, List.mapM_cons, sp_visit_transaction_contrib]
    cases hc : sp_tx_contribution env store tx with
    | none => simp
    | some c =>
      simp only [Option.map_some', Option.bind_eq_bind, Option.some_bind]
      rw [foldlM_sp_visit env store txs (init ++ c)]
      cases hm : txs.mapM (sp_tx_contribution env store) with
      | none => simp
      | some cs => simp [List.flatten_cons, List.append_assoc]

theorem mapM_mem_option {α β : Type} (f : α → Option β) :
    ∀ (l : List α) (bs : List β), l.mapM f = some bs → ∀ b ∈ bs, ∃ a ∈ l, f a = some b
  | [], bs, h => by
    rw [List.mapM_nil] at h
    cases Option.some_injective _ h
    simp
  | a :: l, bs, h => by
    rw [List.mapM_cons] at h
    cases hfa : f a with
    | none => rw [hfa] at h; cases h
    | some b0 =>
      rw [hfa] at h
      cases hm : l.mapM f with
      | none => rw [hm] at h; cases h
      | some bs0 =>
        rw [hm] at h
        simp only [Option.bind_eq_bind, Option.some_bind, Option.map_some'] at h
        cases Option.some_injective _ h
        intro b hb
        rcases List.mem_cons.mp hb with hb | hb
        · exact ⟨a, List.mem_cons_self a l, hb ▸ hfa⟩
        · obtain ⟨a', ha', hfa'⟩ := mapM_mem_option f l bs0 hm b hb
          exact ⟨a', List.mem_cons_of_mem _ ha', hfa'⟩

theorem sp_tx_contribution_shape (env : Env) (store : DBStore) (tx : Transaction)
    (c : List Byte) (h : sp_tx_contribution env store tx = some c) :
    c = [] ∨ c.length = 33 := by
  rw [sp_tx_contribution] at h
  split at h
  · exact Or.inl (Option.some_injective _ h).symm
  · split at h
    · exact Or.inl (Option.some_injective _ h).symm
    · split at h
      · cases h
      · split at h
        · exact Or.inl (Option.some_injective _ h).symm
        · obtain ⟨p, _, hval⟩ := Option.map_eq_some'.mp h
          exact Or.inr (by rw [← hval]; exact p.property)

/-- Claim C3: for every block processed by the silent-payments visitor, the
batch's tweak payload is replaced by the 32-byte block hash followed by the
per-transaction contributions concatenated in transaction order — each
contribution empty (transaction skipped or zero recovered keys) or exactly
one 33-byte compressed point derived from the recovered keys together with
the transaction's full outpoint-pair list; all other batch fields are
untouched, and a block with no qualifying transaction yields the hash alone. -/
theorem claim_C3 (env : Env) (store : DBStore) (bh : BlockHash) (blk : Block)
    (batch batch' : WriteBatch)
    (hscan : scan_single_block_for_silent_payments env store bh blk batch = some batch') :
    ∃ cs, blk.txdata.mapM (sp_tx_contribution env store) = some cs ∧
      batch'.tweak_rows = bh.val ++ cs.flatten ∧
      (∀ c ∈ cs, c = [] ∨ c.length = 33) ∧
      batch'.funding_rows = batch.funding_rows ∧
      batch'.spending_rows = batch.spending_rows ∧
      batch'.txid_rows = batch.txid_rows ∧
      batch'.header_rows = batch.header_rows ∧
      batch'.tip_row = batch.tip_row ∧
      ((∀ tx ∈ blk.txdata, sp_tx_contribution env store tx = some []) →
        batch'.tweak_rows = bh.val) := by
  rw [scan_single_block_for_silent_payments, foldlM_sp_visit] at hscan
  cases hm : blk.txdata.mapM (sp_tx_contribution env store) with
  | none => rw [hm] at hscan; cases hscan
  | some cs =>
    rw [hm, Option.map_some'] at hscan
    cases Option.some_injective _ hscan
    refine ⟨cs, rfl, rfl, ?_, rfl, rfl, rfl, rfl, rfl, ?_⟩
    · intro c hc
      obtain ⟨tx, _, htx⟩ := mapM_mem_option _ blk.txdata cs hm c hc
      exact sp_tx_contribution_shape env store tx c htx
    · intro hall
      have : ∀ c ∈ cs, c = [] := by
        intro c hc
        obtain ⟨tx, htxm, htx⟩ := mapM_mem_option _ blk.txdata cs hm c hc
        have := hall tx htxm
        rw [this] at htx
        exact (Option.some_injective _ htx).symm
      show bh.val ++ cs.flatten = bh.val
      rw [List.flatten_eq_nil_iff.mpr this, List.append_nil]

/-- A block holding just the taproot-paying transaction `txTR`. -/
def blkTR : Block := ⟨3, [txTR]⟩

/-- Witness for C3: scanning `blkTR` (whose single transaction qualifies but
recovers zero candidate keys) yields the block hash alone. -/
theorem claim_C3_witness :
    ∃ cs, blkTR.txdata.mapM (sp_tx_contribution envA store0) = some cs ∧
      (WriteBatch.tweak_rows { tweak_rows := bh0.val }) = bh0.val ++ cs.flatten ∧
      (∀ c ∈ cs, c = [] ∨ c.length = 33) ∧
      (WriteBatch.funding_rows { tweak_rows := bh0.val }) = WriteBatch.funding_rows {} ∧
      (WriteBatch.spending_rows { tweak_rows := bh0.val }) = WriteBatch.spending_rows {} ∧
      (WriteBatch.txid_rows { tweak_rows := bh0.val }) = WriteBatch.txid_rows {} ∧
      (WriteBatch.header_rows { tweak_rows := bh0.val }) = WriteBatch.header_rows {} ∧
      (WriteBatch.tip_row { tweak_rows := bh0.val }) = WriteBatch.tip_row {} ∧
      ((∀ tx ∈ blkTR.txdata, sp_tx_contribution envA store0 tx = some []) →
        (WriteBatch.tweak_rows { tweak_rows := bh0.val }) = bh0.val) :=
  claim_C3 envA store0 bh0 blkTR {} { tweak_rows := bh0.val } rfl

/-! ## Chunking lemmas (`slice::chunks`) -/

theorem listChunksAux_nil (n fuel : Nat) : listChunksAux n fuel [] = [] := by
  cases fuel <;> rfl

theorem listChunksAux_flatten (n : Nat) (hn : 0 < n) :
    ∀ (fuel : Nat) (l : List NewHeader), l.length ≤ fuel →
      (listChunksAux n fuel l).flatten = l
  | 0, l, h => by
    rw [List.eq_nil_of_length_eq_zero (Nat.le_zero.mp h)]
    rfl
  | fuel + 1, [], h => rfl
  | fuel + 1, x :: xs, h => by
    rw [listChunksAux, List.flatten_cons]
    rw [listChunksAux_flatten n hn fuel ((x :: xs).drop n)
      (by simp only [List.length_drop, List.length_cons] at h ⊢; omega)]
    exact List.take_append_drop n (x :: xs)

theorem listChunks_flatten (n : Nat) (hn : 0 < n) (l : List NewHeader) :
    (listChunks n l).flatten = l := by
  rw [listChunks, if_neg (by omega)]
  exact listChunksAux_flatten n hn l.length l le_rfl

theorem listChunksAux_size (n : Nat) (hn : 0 < n) :
    ∀ (fuel : Nat) (l : List NewHeader) (c : List NewHeader),
      c ∈ listChunksAux n fuel l → c ≠ [] ∧ c.length ≤ n
  | 0, l, c, hc => by rw [show listChunksAux n 0 l = [] from rfl] at hc; cases hc
  | fuel + 1, [], c, hc => by cases hc
  | fuel + 1, x :: xs, c, hc => by
    rw [listChunksAux] at hc
    rcases List.mem_cons.mp hc with hc | hc
    · subst hc
      constructor
      · obtain ⟨m, rfl⟩ : ∃ m, n = m + 1 := ⟨n - 1, by omega⟩
        rw [List.take_succ_cons]
        exact List.cons_ne_nil _ _
      · exact List.length_take_le n _
    · exact listChunksAux_size n hn fuel _ c hc

theorem listChunks_size (n : Nat) (hn : 0 < n) (l : List NewHeader) :
    ∀ c ∈ listChunks n l, c ≠ [] ∧ c.length ≤ n := by
  intro c hc
  rw [listChunks, if_neg (by omega)] at hc
  exact listChunksAux_size n hn l.length l c hc

theorem listChunksAux_dropLast (n : Nat) (hn : 0 < n) :
    ∀ (fuel : Nat) (l : List NewHeader) (c : List NewHeader),
      l.length ≤ fuel → c ∈ (listChunksAux n fuel l).dropLast → c.length = n
  | 0, l, c, h, hc => by rw [show listChunksAux n 0 l = [] from rfl] at hc; cases hc
  | fuel + 1, [], c, h, hc => by cases hc
  | fuel + 1, x :: xs, c, h, hc => by
    rw [listChunksAux] at hc
    cases hd : (x :: xs).drop n with
    | nil =>
      rw [hd, listChunksAux_nil] at hc
      cases hc
    | cons y ys =>
      rw [hd] at hc
      have hlen : (y :: ys).length ≤ fuel := by
        have hdl := congrArg List.length hd
        simp only [List.length_drop, List.length_cons] at hdl h ⊢
        omega
      cases fuel with
      | zero => simp at hlen
      | succ fuel' =>
        rw [listChunksAux, List.dropLast_cons₂] at hc
        rcases List.mem_cons.mp hc with hc | hc
        · subst hc
          have hnl : n < (x :: xs).length := by
            by_contra hcon
            push_neg at hcon
            rw [List.drop_eq_nil_iff.mpr hcon] at hd
            cases hd
          rw [List.length_take]
          omega
        · exact listChunksAux_dropLast n hn (fuel' + 1) (y :: ys) c hlen hc

theorem listChunks_dropLast (n : Nat) (hn : 0 < n) (l : List NewHeader) :
    ∀ c ∈ (listChunks n l).dropLast, c.length = n := by
  intro c hc
  rw [listChunks, if_neg (by omega)] at hc
  exact listChunksAux_dropLast n hn l.length l c le_rfl hc

/-! ## Claim C6 -/

/-- The sorted standard-visitor batches of a list of chunks, in order. -/
def std_chunk_writes (env : Env) (chunks : List (List NewHeader)) : List WriteBatch :=
  chunks.map (fun c => env.sort_batch (chunk_batch_std env c))

/-- Forward run of the chunk loop when the index is not ready and the exit
flag is never raised: every chunk is processed by the standard visitor and
written as one batch, in order. -/
theorem run_chunks_std_ok (env : Env) (polls : Nat → Bool) :
    ∀ (chunks : List (List NewHeader)) (idx : Index) (k : Nat),
      idx.is_ready = false →
      (∀ j, j < chunks.length → polls (k + j) = false) →
      run_chunks env polls idx chunks k =
        some ({ idx with store := { idx.store with writes := idx.store.writes ++ std_chunk_writes env chunks } }, none)
  | [], idx, k, hr, hp => by
    rw [run_chunks]
    simp [std_chunk_writes]
  | c :: rest, idx, k, hr, hp => by
    rw [run_chunks]
    have hp0 : polls k = false := by
      have := hp 0 (by simp)
      simpa using this
    rw [hp0]
    simp only [Bool.false_eq_true, if_false]
    rw [sync_blocks, hr]
    simp only [Bool.not_false, if_true]
    have hp' : ∀ j, j < rest.length → polls (k + 1 + j) = false := by
      intro j hj
      have := hp (j + 1) (by simp only [List.length_cons]; omega)
      rwa [show k + (j + 1) = k + 1 + j from by omega] at this
    rw [run_chunks_std_ok env polls rest
      { idx with store := idx.store.write (env.sort_batch (chunk_batch_std env c)), is_ready := false }
      (k + 1) rfl hp']
    simp [DBStore.write, std_chunk_writes, List.append_assoc]

/-- Claim C6: `sync()` returns `Ok(true)` and sets `is_ready` iff the daemon
reports zero new headers; with new headers present (not ready, no exit signal)
it processes them in order in chunks of `batch_size` — the chunks partition
the headers, every chunk is nonempty of size at most `batch_size`, all but the
last of size exactly `batch_size`, one batch written per chunk — updates the
chain view, and returns `Ok(false)`. -/
theorem claim_C6 :
    (∀ (env : Env) (polls : Nat → Bool) (idx : Index),
      env.get_new_headers idx.chain = [] →
      sync env polls idx = some ({ idx with is_ready := true }, Except.ok true)) ∧
    (∀ (env : Env) (polls : Nat → Bool) (idx idx' : Index),
      sync env polls idx = some (idx', Except.ok true) →
      env.get_new_headers idx.chain = [] ∧ idx'.is_ready = true) ∧
    (∀ (env : Env) (polls : Nat → Bool) (idx : Index),
      idx.is_ready = false → 0 < idx.batch_size →
      env.get_new_headers idx.chain ≠ [] →
      (∀ j, j < (listChunks idx.batch_size (env.get_new_headers idx.chain)).length →
        polls j = false) →
      ∃ idx', sync env polls idx = some (idx', Except.ok false) ∧
        idx'.chain = env.chain_update idx.chain (env.get_new_headers idx.chain) ∧
        idx'.store.writes = idx.store.writes ++
          std_chunk_writes env (listChunks idx.batch_size (env.get_new_headers idx.chain)) ∧
        (listChunks idx.batch_size (env.get_new_headers idx.chain)).flatten =
          env.get_new_headers idx.chain ∧
        (∀ c ∈ listChunks idx.batch_size (env.get_new_headers idx.chain),
          c ≠ [] ∧ c.length ≤ idx.batch_size) ∧
        (∀ c ∈ (listChunks idx.batch_size (env.get_new_headers idx.chain)).dropLast,
          c.length = idx.batch_size)) := by
  refine ⟨?_, ?_, ?_⟩
  · intro env polls idx he
    rw [sync, if_pos (by rw [he]; rfl)]
  · intro env polls idx idx' hs
    rw [sync] at hs
    by_cases he : (env.get_new_headers idx.chain).isEmpty
    · rw [if_pos he] at hs
      obtain ⟨h1, _⟩ := Prod.mk.injEq .. ▸ Option.some_injective _ hs
      exact ⟨List.isEmpty_iff.mp he, by rw [← h1]⟩
    · rw [if_neg he] at hs
      cases hrc : run_chunks env polls idx
          (listChunks idx.batch_size (env.get_new_headers idx.chain)) 0 with
      | none => rw [hrc] at hs; cases hs
      | some p =>
        obtain ⟨idx1, r1⟩ := p
        rw [hrc] at hs
        cases r1 with
        | some h =>
          obtain ⟨_, h2⟩ := Prod.mk.injEq .. ▸ Option.some_injective _ hs
          cases h2
        | none =>
          obtain ⟨_, h2⟩ := Prod.mk.injEq .. ▸ Option.some_injective _ hs
          cases h2
  · intro env polls idx hr hb he hp
    have hne : ¬ ((env.get_new_headers idx.chain).isEmpty = true) := by
      simp [List.isEmpty_iff, he]
    have hp0 : ∀ j, j < (listChunks idx.batch_size (env.get_new_headers idx.chain)).length →
        polls (0 + j) = false := by
      intro j hj
      rw [Nat.zero_add]
      exact hp j hj
    refine ⟨{ idx with
        store := { idx.store with writes := idx.store.writes ++ std_chunk_writes env (listChunks idx.batch_size (env.get_new_headers idx.chain)) }
        chain := env.chain_update idx.chain (env.get_new_headers idx.chain)
        flush_needed := true }, ?_, rfl, rfl, listChunks_flatten _ hb _,
      listChunks_size _ hb _, listChunks_dropLast _ hb _⟩
    rw [sync, if_neg hne, run_chunks_std_ok env polls _ idx 0 hr hp0]

/-- A header at height `h` whose header data is `h` itself. -/
def nh (h : Nat) : NewHeader := ⟨h, h, bh0⟩

/-- A daemon reporting three new headers at heights 1, 2, 3. -/
def envC6 : Env := { envA with get_new_headers := fun _ => [nh 1, nh 2, nh 3] }

def idxC6 : Index := ⟨store0, 2, none, chain0 0, false, false⟩

/-- Witness for C6: three new headers with `batch_size = 2` are processed as
chunks `[1,2]` and `[3]`, the chain is updated, and the call reports not yet
fully synced. -/
theorem claim_C6_witness :
    ∃ idx', sync envC6 pollsF idxC6 = some (idx', Except.ok false) ∧
      idx'.chain = envC6.chain_update idxC6.chain (envC6.get_new_headers idxC6.chain) ∧
      idx'.store.writes = idxC6.store.writes ++
        std_chunk_writes envC6 (listChunks idxC6.batch_size (envC6.get_new_headers idxC6.chain)) ∧
      (listChunks idxC6.batch_size (envC6.get_new_headers idxC6.chain)).flatten =
        envC6.get_new_headers idxC6.chain ∧
      (∀ c ∈ listChunks idxC6.batch_size (envC6.get_new_headers idxC6.chain),
        c ≠ [] ∧ c.length ≤ idxC6.batch_size) ∧
      (∀ c ∈ (listChunks idxC6.batch_size (envC6.get_new_headers idxC6.chain)).dropLast,
        c.length = idxC6.batch_size) :=
  claim_C6.2.2 envC6 pollsF idxC6 rfl (by decide) (by decide) (fun _ _ => rfl)

/-! ## Claim C5 -/

/-- What one persisted batch may legitimately be: the sorted whole-chunk batch
of the standard visitor (when the index was not ready) or of the
silent-payments visitor (when it was). -/
def chunk_write_ok (env : Env) (idx : Index) (c : List NewHeader) (b : WriteBatch) : Prop :=
  (idx.is_ready = false ∧ b = env.sort_batch (chunk_batch_std env c)) ∨
  (idx.is_ready = true ∧
    ∃ b0, chunk_batch_sp env idx.store c = some b0 ∧ b = env.sort_batch b0)

/-- Interruption characterization of the chunk loop: an interrupted run
stopped at the first raised poll, reports the first height of the pending
chunk, and wrote exactly one whole-chunk batch per completed chunk. -/
theorem run_chunks_error (env : Env) (polls : Nat → Bool) :
    ∀ (chunks : List (List NewHeader)) (idx : Index) (k0 : Nat) (idx' : Index) (h : Nat),
      run_chunks env polls idx chunks k0 = some (idx', some h) →
      ∃ k, ∃ hk : k < chunks.length,
        polls (k0 + k) = true ∧ (∀ j, j < k → polls (k0 + j) = false) ∧
        h = chunk_first_height (chunks.get ⟨k, hk⟩) ∧
        ∃ bs, bs.length = k ∧ idx'.store.writes = idx.store.writes ++ bs ∧
          List.Forall₂ (chunk_write_ok env idx) (chunks.take k) bs
  | [], idx, k0, idx', h, hrun => by
    rw [run_chunks] at hrun
    obtain ⟨_, h2⟩ := Prod.mk.injEq .. ▸ Option.some_injective _ hrun
    cases h2
  | c :: rest, idx, k0, idx', h, hrun => by
    rw [run_chunks] at hrun
    by_cases hp : polls k0
    · rw [if_pos hp] at hrun
      obtain ⟨h1, h2⟩ := Prod.mk.injEq .. ▸ Option.some_injective _ hrun
      subst h1
      refine ⟨0, by simp, by simpa using hp,
        fun j hj => absurd hj (Nat.not_lt_zero j), (Option.some_injective _ h2).symm,
        [], rfl, (List.append_nil _).symm, ?_⟩
      rw [List.take_zero]
      exact List.Forall₂.nil
    · rw [if_neg hp] at hrun
      cases hsb : sync_blocks env idx c with
      | none => rw [hsb] at hrun; cases hrun
      | some idx1 =>
        rw [hsb] at hrun
        obtain ⟨b, hb, hbP⟩ := sync_blocks_char env idx c idx1 hsb
        subst hb
        obtain ⟨k, hk, hpk, hpj, hH, bs, hlen, hws, hfa⟩ :=
          run_chunks_error env polls rest _ (k0 + 1) idx' h hrun
        refine ⟨k + 1, by simpa using Nat.succ_lt_succ hk, ?_, ?_, ?_, b :: bs,
          by simp [hlen], ?_, ?_⟩
        · rwa [show k0 + (k + 1) = k0 + 1 + k from by omega]
        · intro j hj
          cases j with
          | zero =>
            have hfalse := Bool.not_eq_true (polls k0) ▸ hp
            simpa using hfalse
          | succ j' =>
            have := hpj j' (by omega)
            rwa [show k0 + (j' + 1) = k0 + 1 + j' from by omega]
        · rw [List.get_cons_succ]
          exact hH
        · rw [hws]
          simp [DBStore.write]
        · rw [List.take_succ_cons]
          exact List.Forall₂.cons hbP hfa

/-- The shape of an interrupted sync call: the reported height is the first
height of the first chunk whose poll found the exit flag raised, and the
store received one whole-chunk batch per chunk completed before it. -/
def interrupted_run_spec (env : Env) (polls : Nat → Bool) (idx idx' : Index) (h : Nat)
    (chunks : List (List NewHeader)) : Prop :=
  ∃ k, ∃ hk : k < chunks.length,
    polls k = true ∧ (∀ j, j < k → polls j = false) ∧
    h = chunk_first_height (chunks.get ⟨k, hk⟩) ∧
    ∃ bs, bs.length = k ∧ idx'.store.writes = idx.store.writes ++ bs ∧
      List.Forall₂ (chunk_write_ok env idx) (chunks.take k) bs

/-- Claim C5 (amended): when the cancellation signal is raised, an in-progress
sync call (standard or silent-payments) stops at the first raised per-chunk
poll and returns an error identifying the first height of the not-yet-written
chunk — one past the last safely-completed height — with exactly one
whole-chunk batch persisted per chunk completed before the interruption, so
no partial chunk is ever written. -/
theorem claim_C5 :
    (∀ (env : Env) (polls : Nat → Bool) (idx idx' : Index) (h : Nat),
      sync env polls idx = some (idx', Except.error h) →
      interrupted_run_spec env polls idx idx' h
        (listChunks idx.batch_size (env.get_new_headers idx.chain))) ∧
    (∀ (env : Env) (polls : Nat → Bool) (idx idx' : Index) (h : Nat),
      silent_payments_sync env polls idx = some (idx', Except.error h) →
      interrupted_run_spec env polls idx idx' h
        (listChunks idx.batch_size (sp_new_headers env idx))) := by
  constructor
  · intro env polls idx idx' h hs
    rw [sync] at hs
    by_cases he : (env.get_new_headers idx.chain).isEmpty
    · rw [if_pos he] at hs
      obtain ⟨_, h2⟩ := Prod.mk.injEq .. ▸ Option.some_injective _ hs
      cases h2
    · rw [if_neg he] at hs
      cases hrc : run_chunks env polls idx
          (listChunks idx.batch_size (env.get_new_headers idx.chain)) 0 with
      | none => rw [hrc] at hs; cases hs
      | some p =>
        obtain ⟨idx1, r1⟩ := p
        rw [hrc] at hs
        cases r1 with
        | none =>
          obtain ⟨_, h2⟩ := Prod.mk.injEq .. ▸ Option.some_injective _ hs
          cases h2
        | some hh =>
          obtain ⟨h1, h2⟩ := Prod.mk.injEq .. ▸ Option.some_injective _ hs
          subst h1
          obtain rfl : hh = h := by cases h2; rfl
          obtain ⟨k, hk, hpk, hpj, hH, bs, hlen, hws, hfa⟩ :=
            run_chunks_error env polls _ idx 0 idx1 hh hrc
          refine ⟨k, hk, by rwa [Nat.zero_add] at hpk, ?_, hH, bs, hlen, hws, hfa⟩
          intro j hj
          have := hpj j hj
          rwa [Nat.zero_add] at this
  · intro env polls idx idx' h hs
    rw [silent_payments_sync] at hs
    by_cases he : (sp_new_headers env idx).isEmpty
    · rw [if_pos he] at hs
      obtain ⟨_, h2⟩ := Prod.mk.injEq .. ▸ Option.some_injective _ hs
      cases h2
    · rw [if_neg he] at hs
      cases hrc : run_chunks env polls idx
          (listChunks idx.batch_size (sp_new_headers env idx)) 0 with
      | none => rw [hrc] at hs; cases hs
      | some p =>
        obtain ⟨idx1, r1⟩ := p
        rw [hrc] at hs
        cases r1 with
        | none =>
          obtain ⟨_, h2⟩ := Prod.mk.injEq .. ▸ Option.some_injective _ hs
          cases h2
        | some hh =>
          obtain ⟨h1, h2⟩ := Prod.mk.injEq .. ▸ Option.some_injective _ hs
          subst h1
          obtain rfl : hh = h := by cases h2; rfl
          obtain ⟨k, hk, hpk, hpj, hH, bs, hlen, hws, hfa⟩ :=
            run_chunks_error env polls _ idx 0 idx1 hh hrc
          refine ⟨k, hk, by rwa [Nat.zero_add] at hpk, ?_, hH, bs, hlen, hws, hfa⟩
          intro j hj
          have := hpj j hj
          rwa [Nat.zero_add] at this

def except_err : Except Nat Bool → Option Nat
  | Except.error h => some h
  | Except.ok _ => none

/-- A daemon reporting four new headers at heights 1, 2, 3, 4. -/
def envC5 : Env := { envA with get_new_headers := fun _ => [nh 1, nh 2, nh 3, nh 4] }

/-- An exit flag raised at the second per-chunk poll. -/
def pollsC5 : Nat → Bool := fun k => k == 1

def idxC5 : Index := ⟨store0, 2, none, chain0 0, false, false⟩

/-- Counterexample for C5 as stated: interrupted before its second chunk, the
call's error carries height 3 — the first *unprocessed* height — while the
last safely-completed height is 2 (the single persisted batch covers heights
1 and 2), so the error does not identify the last safely-completed height. -/
theorem claim_C5_counterexample :
    ((sync envC5 pollsC5 idxC5).map
        (fun p => (except_err p.2,
          p.1.store.writes.map (fun w => w.txid_rows.map (fun r => r.height)))))
      = some (some 3, [[1, 2]]) ∧ (3 : Nat) ≠ 2 :=
  ⟨rfl, by decide⟩

def idxC5out : Index := ((sync envC5 pollsC5 idxC5).map Prod.fst).getD idxC5

/-- Witness for C5: the interrupted concrete run above satisfies the amended
characterization. -/
theorem claim_C5_witness :
    interrupted_run_spec envC5 pollsC5 idxC5 idxC5out 3
      (listChunks idxC5.batch_size (envC5.get_new_headers idxC5.chain)) :=
  claim_C5.1 envC5 pollsC5 idxC5 idxC5out 3 rfl

/-! ## Claim C1 -/

/-- A batch written during a silent-payments pass: the sorted whole-chunk
batch built by the silent-payments visitor from that chunk. -/
def sp_chunk_ok (env : Env) (store : DBStore) (c : List NewHeader) (b : WriteBatch) : Prop :=
  ∃ b0, chunk_batch_sp env store c = some b0 ∧ b = env.sort_batch b0

/-- When the index is ready, every batch written by the chunk loop is a
silent-payments-visitor batch of a prefix of the chunks, in order. -/
theorem run_chunks_sp (env : Env) (polls : Nat → Bool) :
    ∀ (chunks : List (List NewHeader)) (idx : Index) (k : Nat) (idx' : Index)
      (r : Option Nat),
      idx.is_ready = true →
      run_chunks env polls idx chunks k = some (idx', r) →
      ∃ m, m ≤ chunks.length ∧ ∃ bs,
        idx'.store.writes = idx.store.writes ++ bs ∧
        List.Forall₂ (sp_chunk_ok env idx.store) (chunks.take m) bs
  | [], idx, k, idx', r, hr, hrun => by
    rw [run_chunks] at hrun
    obtain ⟨h1, _⟩ := Prod.mk.injEq .. ▸ Option.some_injective _ hrun
    subst h1
    refine ⟨0, Nat.zero_le _, [], (List.append_nil _).symm, ?_⟩
    rw [List.take_zero]
    exact List.Forall₂.nil
  | c :: rest, idx, k, idx', r, hr, hrun => by
    rw [run_chunks] at hrun
    by_cases hp : polls k
    · rw [if_pos hp] at hrun
      obtain ⟨h1, _⟩ := Prod.mk.injEq .. ▸ Option.some_injective _ hrun
      subst h1
      refine ⟨0, Nat.zero_le _, [], (List.append_nil _).symm, ?_⟩
      rw [List.take_zero]
      exact List.Forall₂.nil
    · rw [if_neg hp] at hrun
      cases hsb : sync_blocks env idx c with
      | none => rw [hsb] at hrun; cases hrun
      | some idx1 =>
        rw [hsb] at hrun
        obtain ⟨b, hb, hbP⟩ := sync_blocks_char env idx c idx1 hsb
        rcases hbP with ⟨hf, _⟩ | ⟨_, b0, hb0, hbs⟩
        · rw [hr] at hf
          cases hf
        · subst hb
          obtain ⟨m, hm, bs, hws, hfa⟩ :=
            run_chunks_sp env polls rest
              { idx with store := idx.store.write b } (k + 1) idx' r hr hrun
          refine ⟨m + 1, by simp only [List.length_cons]; omega, b :: bs, ?_, ?_⟩
          · rw [hws]
            simp [DBStore.write]
          · rw [List.take_succ_cons]
            exact List.Forall₂.cons ⟨b0, hb0, hbs⟩ hfa

/-- Claim C1 (amended): in a `silent_payments_sync` call made while `is_ready`
is true — the state the caller establishes by first driving `sync` to
completion — every fetched block is processed by the silent-payments visitor:
each written batch is the silent-payments batch of one chunk, in chunk order.
(When `is_ready` is false the shared `sync_blocks` routine dispatches to the
standard visitor instead; see the counterexample.) -/
theorem claim_C1 (env : Env) (polls : Nat → Bool) (idx idx' : Index)
    (r : Except Nat Bool) (hr : idx.is_ready = true)
    (hs : silent_payments_sync env polls idx = some (idx', r)) :
    ∃ m, m ≤ (listChunks idx.batch_size (sp_new_headers env idx)).length ∧
    ∃ bs, idx'.store.writes = idx.store.writes ++ bs ∧
      List.Forall₂ (sp_chunk_ok env idx.store)
        ((listChunks idx.batch_size (sp_new_headers env idx)).take m) bs := by
  rw [silent_payments_sync] at hs
  by_cases he : (sp_new_headers env idx).isEmpty
  · rw [if_pos he] at hs
    obtain ⟨h1, _⟩ := Prod.mk.injEq .. ▸ Option.some_injective _ hs
    refine ⟨0, Nat.zero_le _, [], ?_, by rw [List.take_zero]; exact List.Forall₂.nil⟩
    rw [List.append_nil, ← h1]
    cases hf : idx.flush_needed with
    | true => rfl
    | false => rfl
  · rw [if_neg he] at hs
    cases hrc : run_chunks env polls idx
        (listChunks idx.batch_size (sp_new_headers env idx)) 0 with
    | none => rw [hrc] at hs; cases hs
    | some p =>
      obtain ⟨idx1, r1⟩ := p
      rw [hrc] at hs
      have hsp := run_chunks_sp env polls _ idx 0 idx1 r1 hr hrc
      cases r1 with
      | some hh =>
        obtain ⟨h1, _⟩ := Prod.mk.injEq .. ▸ Option.some_injective _ hs
        subst h1
        exact hsp
      | none =>
        obtain ⟨h1, _⟩ := Prod.mk.injEq .. ▸ Option.some_injective _ hs
        obtain ⟨m, hm, bs, hws, hfa⟩ := hsp
        exact ⟨m, hm, bs, by rw [← h1]; exact hws, hfa⟩

/-- Counterexample for C1 as stated: a `silent_payments_sync` call made while
`is_ready` is false (fresh index, chain already at height 70002) routes its
blocks through the *standard* visitor — the single written batch carries two
txid rows and an empty tweak payload, whereas the silent-payments batch of the
same chunk would carry zero txid rows and a 32-byte tweak payload. -/
theorem claim_C1_counterexample :
    ((silent_payments_sync envA pollsF idxB).map
        (fun p => p.1.store.writes.map (fun w => (w.txid_rows.length, w.tweak_rows.length))))
      = some [(2, 0)] ∧
    ((listChunks idxB.batch_size (sp_new_headers envA idxB)).map
        (fun c => (chunk_batch_sp envA idxB.store c).map
          (fun w => (w.txid_rows.length, w.tweak_rows.length))))
      = [some (0, 32)] :=
  ⟨rfl, rfl⟩

/-- The same state as `idxB` but after the standard pass reported ready. -/
def idxSP : Index := ⟨store0, 2, none, chain0 70002, true, false⟩

def idxSPout : Index :=
  ((silent_payments_sync envA pollsF idxSP).map Prod.fst).getD idxSP

/-- Witness for C1: a ready index scanning two blocks writes exactly the
silent-payments batches of its chunks. -/
theorem claim_C1_witness :
    ∃ m, m ≤ (listChunks idxSP.batch_size (sp_new_headers envA idxSP)).length ∧
    ∃ bs, idxSPout.store.writes = idxSP.store.writes ++ bs ∧
      List.Forall₂ (sp_chunk_ok envA idxSP.store)
        ((listChunks idxSP.batch_size (sp_new_headers envA idxSP)).take m) bs :=
  claim_C1 envA pollsF idxSP idxSPout (Except.ok false) rfl rfl

end Electrs
